import Mathlib

set_option autoImplicit false

namespace OneDiff

/-!
Shallow embedding of the compiled-graph LRU cache of
`OneFlowStableDiffusionImg2ImgPipeline`
(src/diffusers/pipelines/stable_diffusion/pipeline_stable_diffusion_img2img_oneflow.py)
and of the `oneflow_compile` deployable-module wrapper
(src/onediff/infer_compiler/with_oneflow_compile.py).

The cache is the Python dict `self.unet_graphs : (height, width) ↦ (lru_time, unet_graph)`,
modelled as an association list kept in insertion order (Python dicts preserve
insertion order; assigning to an existing key keeps its position).  Compiled
graphs are identified by the index of the compilation that produced them
(`compile_count` counts `UNetGraph(self.unet)` constructions followed by
`_compile`), so cache hits that avoid recompilation are observable.
-/

/-- A `(height, width)` cache key. -/
abbrev ShapeKey := Nat × Nat

/-- One entry of the `unet_graphs` dict: key `(height, width)`,
value `(lru_time, graph_id)`. -/
abbrev Entry := ShapeKey × (Nat × Nat)

/-- Errors the embedded Python fragments can raise. -/
inductive PyError where
  | valueError
  | attributeError
deriving DecidableEq, Repr

/-- The cache-related state of the pipeline object, as initialized in
`__init__`: `self.unet_graphs = dict()`, `self.unet_graphs_cache_size = 1`,
`self.unet_graphs_lru_cache_time = 0`.  `compile_count` instruments how many
unet graphs were compiled so far (it names freshly compiled graphs). -/
structure PipelineCache where
  unet_graphs : List Entry
  unet_graphs_cache_size : Int
  unet_graphs_lru_cache_time : Nat
  compile_count : Nat
deriving DecidableEq, Repr

/-- `d[k]` on the dict: value of the first entry whose key is `k`. -/
def dictLookup : List Entry → ShapeKey → Option (Nat × Nat)
  | [], _ => none
  | (k', v) :: rest, k => if k' = k then some v else dictLookup rest k

/-- `d[k] = v` on the dict: replace in place if the key is present
(keeping its position, as Python dicts do), else append. -/
def dictSet : List Entry → ShapeKey → Nat × Nat → List Entry
  | [], k, v => [(k, v)]
  | (k', v') :: rest, k, v =>
    if k' = k then (k, v) :: rest else (k', v') :: dictSet rest k v

/-- `del d[k]` on the dict. -/
def dictDel : List Entry → ShapeKey → List Entry
  | [], _ => []
  | (k', v') :: rest, k => if k' = k then rest else (k', v') :: dictDel rest k

/-- The scan performed by
`min(self.unet_graphs.keys(), key=lambda shape: self.unet_graphs[shape][0])`:
walk the remaining entries keeping the current best `(key, time)`, replacing
it only on a strictly smaller time (so the earliest minimal key wins, as for
Python's `min`). -/
def minKeyFold : List Entry → ShapeKey × Nat → ShapeKey × Nat
  | [], best => best
  | (k, (t, _)) :: rest, best =>
    minKeyFold rest (if t < best.2 then (k, t) else best)

/-- `min(d.keys(), key=lambda shape: d[shape][0])`; `none` when the dict is
empty (Python raises `ValueError` there). -/
def minKeyByTime : List Entry → Option ShapeKey
  | [] => none
  | (k, (t, _)) :: rest => some (minKeyFold rest (k, t)).1

/-- The eviction loop
`while len(self.unet_graphs) >= self.unet_graphs_cache_size: ... del ...`,
returning the surviving dict together with the evicted keys in eviction
order.  Each iteration either stops, errors (`min` of an empty dict), or
deletes one present key, so `d.length + 1` iterations always suffice; the
explicit fuel only bounds the recursion and `evictLoopFuel_irrel` shows any
fuel above `d.length` computes the same result. -/
def evictLoopFuel : Nat → List Entry → Int → Except PyError (List Entry × List ShapeKey)
  | 0, d, _ => .ok (d, [])
  | fuel + 1, d, cap =>
    if (d.length : Int) ≥ cap then
      match minKeyByTime d with
      | none => .error .valueError
      | some k =>
        match evictLoopFuel fuel (dictDel d k) cap with
        | .error e => .error e
        | .ok (d', ev) => .ok (d', k :: ev)
    else .ok (d, [])

/-- The eviction loop run with sufficient fuel. -/
def evictLoop (d : List Entry) (cap : Int) : Except PyError (List Entry × List ShapeKey) :=
  evictLoopFuel (d.length + 1) d cap

/-- Result of one `compile_unet` cache access inside `__call__`. -/
structure AccessResult where
  state : PipelineCache
  unet_graph : Nat
  evicted : List ShapeKey
  recompiled : Bool
deriving DecidableEq, Repr

/-- The `if compile_unet:` block of `__call__` (lines 274–294): increment the
logical clock; on a hit re-stamp the entry with the new clock and reuse its
graph; on a miss run the eviction loop, compile a fresh graph and insert it
stamped with the new clock. -/
def cacheAccess (s : PipelineCache) (hw : ShapeKey) : Except PyError AccessResult :=
  let t := s.unet_graphs_lru_cache_time + 1
  match dictLookup s.unet_graphs hw with
  | some (_, g) =>
    let s' : PipelineCache :=
      { s with unet_graphs := dictSet s.unet_graphs hw (t, g), unet_graphs_lru_cache_time := t }
    .ok { state := s', unet_graph := g, evicted := [], recompiled := false }
  | none =>
    match evictLoop s.unet_graphs s.unet_graphs_cache_size with
    | .error e => .error e
    | .ok (d, ev) =>
      let s' : PipelineCache :=
        { s with unet_graphs := dictSet d hw (t, s.compile_count), unet_graphs_lru_cache_time := t, compile_count := s.compile_count + 1 }
      .ok { state := s', unet_graph := s.compile_count, evicted := ev, recompiled := true }

/-- The cache fields as set by `__init__`. -/
def initPipelineCache : PipelineCache :=
  { unet_graphs := [], unet_graphs_cache_size := 1,
    unet_graphs_lru_cache_time := 0, compile_count := 0 }

/-- `set_unet_graphs_cache_size`: a bare assignment
`self.unet_graphs_cache_size = cache_size`, with no validation. -/
def set_unet_graphs_cache_size (s : PipelineCache) (cache_size : Int) : PipelineCache :=
  { s with unet_graphs_cache_size := cache_size }

/-- A sequence of `__call__` cache accesses, accumulating evicted keys. -/
def runAccesses : PipelineCache → List ShapeKey → Except PyError (PipelineCache × List ShapeKey)
  | s, [] => .ok (s, [])
  | s, k :: rest =>
    match cacheAccess s k with
    | .error e => .error e
    | .ok r =>
      match runAccesses r.state rest with
      | .error e => .error e
      | .ok (s', ev) => .ok (s', r.evicted ++ ev)

/-! ### Dictionary and eviction-loop lemmas -/

theorem dictSet_lookup_self (d : List Entry) (k : ShapeKey) (v : Nat × Nat) :
    dictLookup (dictSet d k v) k = some v := by
  induction d with
  | nil => simp [dictSet, dictLookup]
  | cons e rest ih =>
    obtain ⟨k', v'⟩ := e
    by_cases h : k' = k
    · simp [dictSet, dictLookup, h]
    · simp [dictSet, dictLookup, h, ih]

theorem dictLookup_dictSet_ne (d : List Entry) (k k' : ShapeKey) (v : Nat × Nat)
    (h : k' ≠ k) : dictLookup (dictSet d k v) k' = dictLookup d k' := by
  induction d with
  | nil => simp [dictSet, dictLookup, Ne.symm h]
  | cons e rest ih =>
    obtain ⟨ke, ve⟩ := e
    by_cases hk : ke = k
    · subst hk
      simp [dictSet, dictLookup, Ne.symm h]
    · simp only [dictSet, if_neg hk, dictLookup]
      by_cases hk' : ke = k'
      · simp [hk']
      · simp [hk', ih]

theorem dictSet_map_fst_mem (d : List Entry) (k : ShapeKey) (v v' : Nat × Nat)
    (h : dictLookup d k = some v') :
    (dictSet d k v).map Prod.fst = d.map Prod.fst := by
  induction d with
  | nil => simp [dictLookup] at h
  | cons e rest ih =>
    obtain ⟨ke, ve⟩ := e
    by_cases hk : ke = k
    · simp [dictSet, hk]
    · simp only [dictLookup, if_neg hk] at h
      simp [dictSet, hk, ih h]

theorem dictSet_length_none (d : List Entry) (k : ShapeKey) (v : Nat × Nat)
    (h : dictLookup d k = none) : (dictSet d k v).length = d.length + 1 := by
  induction d with
  | nil => simp [dictSet]
  | cons e rest ih =>
    obtain ⟨ke, ve⟩ := e
    by_cases hk : ke = k
    · simp [dictLookup, hk] at h
    · simp only [dictLookup, if_neg hk] at h
      simp [dictSet, hk, ih h]

theorem dictSet_length_some (d : List Entry) (k : ShapeKey) (v v' : Nat × Nat)
    (h : dictLookup d k = some v') : (dictSet d k v).length = d.length := by
  have := dictSet_map_fst_mem d k v v' h
  have h1 : ((dictSet d k v).map Prod.fst).length = (d.map Prod.fst).length := by rw [this]
  simpa using h1

theorem dictDel_length (d : List Entry) (k : ShapeKey)
    (h : k ∈ d.map Prod.fst) : (dictDel d k).length + 1 = d.length := by
  induction d with
  | nil => simp at h
  | cons e rest ih =>
    obtain ⟨ke, ve⟩ := e
    by_cases hk : ke = k
    · simp [dictDel, hk]
    · simp only [List.map_cons, List.mem_cons] at h
      rcases h with h | h

      · exact absurd h.symm hk
      · simp [dictDel, hk, ih h]

theorem dictDel_lookup_none (d : List Entry) (k k' : ShapeKey)
    (h : dictLookup d k' = none) : dictLookup (dictDel d k) k' = none := by
  induction d with
  | nil => simp [dictDel, dictLookup]
  | cons e rest ih =>
    obtain ⟨ke, ve⟩ := e
    by_cases hk' : ke = k'
    · simp [dictLookup, hk'] at h
    · simp only [dictLookup, if_neg hk'] at h
      by_cases hk : ke = k
      · simpa [dictDel, hk] using h
      · simp [dictDel, hk, dictLookup, hk', ih h]

theorem minKeyFold_spec (d : List Entry) (b : ShapeKey × Nat) :
    (minKeyFold d b = b ∨ ∃ g, ((minKeyFold d b).1, ((minKeyFold d b).2, g)) ∈ d) ∧
    (minKeyFold d b).2 ≤ b.2 ∧ ∀ e ∈ d, (minKeyFold d b).2 ≤ e.2.1 := by
  induction d generalizing b with
  | nil => simp [minKeyFold]
  | cons e rest ih =>
    obtain ⟨ke, te, ge⟩ := e
    have hstep : minKeyFold ((ke, (te, ge)) :: rest) b =
        minKeyFold rest (if te < b.2 then (ke, te) else b) := rfl
    set b' := if te < b.2 then (ke, te) else b with hb'
    obtain ⟨hmem, hle, hall⟩ := ih b'
    have hb'le : b'.2 ≤ b.2 := by
      rw [hb']; split
      · exact le_of_lt (by assumption)
      · exact le_refl _
    have hb'te : b'.2 ≤ te := by
      rw [hb']; split
      · exact le_refl _
      · exact le_of_not_lt (by assumption)
    refine ⟨?_, ?_, ?_⟩
    · rcases hmem with hmem | ⟨g, hg⟩
      · rw [hstep, hmem, hb']
        split
        · right
          exact ⟨ge, by simp⟩
        · left; rfl
      · right
        rw [hstep]
        exact ⟨g, List.mem_cons_of_mem _ hg⟩
    · rw [hstep]; exact le_trans hle hb'le
    · intro e he
      rcases List.mem_cons.mp he with he | he
      · subst he
        rw [hstep]
        exact le_trans hle hb'te
      · rw [hstep]; exact hall e he

theorem minKeyByTime_spec (d : List Entry) (k : ShapeKey)
    (h : minKeyByTime d = some k) :
    ∃ t g, (k, (t, g)) ∈ d ∧ ∀ e ∈ d, t ≤ e.2.1 := by
  match d with
  | [] => simp [minKeyByTime] at h
  | (k0, (t0, g0)) :: rest =>
    simp only [minKeyByTime, Option.some.injEq] at h
    obtain ⟨hmem, hle, hall⟩ := minKeyFold_spec rest (k0, t0)
    refine ⟨(minKeyFold rest (k0, t0)).2, ?_⟩
    rcases hmem with hmem | ⟨g, hg⟩
    · refine ⟨g0, ?_, ?_⟩
      · rw [← h, hmem]
        simp [hmem]
      · intro e he
        rcases List.mem_cons.mp he with he | he
        · rw [he]; exact hle
        · exact hall e he
    · refine ⟨g, ?_, ?_⟩
      · rw [← h]
        exact List.mem_cons_of_mem _ hg
      · intro e he
        rcases List.mem_cons.mp he with he | he
        · rw [he]; exact hle
        · exact hall e he

theorem minKeyByTime_mem (d : List Entry) (k : ShapeKey)
    (h : minKeyByTime d = some k) : k ∈ d.map Prod.fst := by
  obtain ⟨t, g, hmem, -⟩ := minKeyByTime_spec d k h
  exact List.mem_map.mpr ⟨(k, (t, g)), hmem, rfl⟩

theorem minKeyByTime_isSome (d : List Entry) (h : d ≠ []) :
    ∃ k, minKeyByTime d = some k := by
  match d with
  | [] => exact absurd rfl h
  | (k0, (t0, g0)) :: rest => exact ⟨_, rfl⟩

theorem evictLoopFuel_irrel (f₁ : Nat) : ∀ (f₂ : Nat) (d : List Entry) (cap : Int),
    d.length < f₁ → d.length < f₂ →
    evictLoopFuel f₁ d cap = evictLoopFuel f₂ d cap := by
  induction f₁ with
  | zero => intro f₂ d cap h1; exact absurd h1 (Nat.not_lt_zero _)
  | succ a ih =>
    intro f₂ d cap h1 h2
    match f₂ with
    | 0 => exact absurd h2 (Nat.not_lt_zero _)
    | b + 1 =>
      simp only [evictLoopFuel]
      split
      · cases hmin : minKeyByTime d with
        | none => rfl
        | some k =>
          have hmem := minKeyByTime_mem d k hmin
          have hlen := dictDel_length d k hmem
          simp only [ih b (dictDel d k) cap (by omega) (by omega)]
      · rfl

theorem evictLoop_under_cap (d : List Entry) (cap : Int)
    (h : (d.length : Int) < cap) : evictLoop d cap = .ok (d, []) := by
  rw [evictLoop]
  rw [show d.length + 1 = d.length + 1 from rfl]
  simp only [evictLoopFuel]
  rw [if_neg (by omega)]

theorem evictLoop_at_cap (d : List Entry) (cap : Int) (k : ShapeKey)
    (hmin : minKeyByTime d = some k) (hlen : (d.length : Int) = cap) :
    evictLoop d cap = .ok (dictDel d k, [k]) := by
  have hmem := minKeyByTime_mem d k hmin
  have hdel := dictDel_length d k hmem
  rw [evictLoop]
  have hne : d.length ≠ 0 := by
    intro h0
    rw [List.length_eq_zero.mp h0] at hmem
    simp at hmem
  obtain ⟨n, hn⟩ : ∃ n, d.length = n + 1 := ⟨d.length - 1, by omega⟩
  rw [hn]
  have houter : (d.length : Int) ≥ cap := by omega
  have hinner : ¬ ((dictDel d k).length : Int) ≥ cap := by omega
  simp [evictLoopFuel, hmin, houter, hinner]

theorem evictLoopFuel_ok (cap : Int) (h1 : 1 ≤ cap) :
    ∀ (f : Nat) (d : List Entry), d.length < f →
    ∃ d' ev, evictLoopFuel f d cap = .ok (d', ev) ∧ (d'.length : Int) < cap ∧
      ∀ k', dictLookup d k' = none → dictLookup d' k' = none := by
  intro f
  induction f with
  | zero => intro d h; exact absurd h (Nat.not_lt_zero _)
  | succ a ih =>
    intro d hd
    simp only [evictLoopFuel]
    by_cases hc : (d.length : Int) ≥ cap
    · rw [if_pos hc]
      have hne : d ≠ [] := by
        intro h0
        rw [h0] at hc
        simp at hc
        omega
      obtain ⟨k, hmin⟩ := minKeyByTime_isSome d hne
      have hmem := minKeyByTime_mem d k hmin
      have hlen := dictDel_length d k hmem
      obtain ⟨d', ev, heq, hlt, hnone⟩ := ih (dictDel d k) (by omega)
      refine ⟨d', k :: ev, ?_, hlt, ?_⟩
      · simp only [hmin, heq]
      · intro k' hk'
        exact hnone k' (dictDel_lookup_none d k k' hk')
    · rw [if_neg hc]
      exact ⟨d, [], rfl, by omega, fun _ h => h⟩

theorem evictLoop_ok (d : List Entry) (cap : Int) (h1 : 1 ≤ cap) :
    ∃ d' ev, evictLoop d cap = .ok (d', ev) ∧ (d'.length : Int) < cap ∧
      ∀ k', dictLookup d k' = none → dictLookup d' k' = none :=
  evictLoopFuel_ok cap h1 (d.length + 1) d (by omega)

/-! ### The claims about the graph cache -/

/-- A pipeline state with two cached graphs, capacity 2, clock 2,
used to instantiate the cache theorems on concrete inputs. -/
def demoState : PipelineCache :=
  { unet_graphs := [((64, 64), (1, 0)), ((128, 128), (2, 1))],
    unet_graphs_cache_size := 2, unet_graphs_lru_cache_time := 2,
    compile_count := 2 }

/-- C1: the graph cache maintains the invariant that, after every invocation
(every `compile_unet` access of `__call__`), its size never exceeds the
configured maximum cache size; when an insertion would exceed capacity, the
entry removed is the one with the oldest last-access-order; and recency is a
monotonically increasing logical clock (`unet_graphs_lru_cache_time`)
incremented on every cache access (hit or insert), with a hit updating the
entry's last-access-order to the current (most recent) clock value.  Stated
as preservation: from any state within the (≥ 1) configured capacity, the
access succeeds, keeps the size within capacity, bumps the clock by one,
re-stamps a hit entry with the new clock, and only evicts entries whose
recency stamp is minimal among all entries. -/
theorem claim_C1 (s : PipelineCache) (hw : ShapeKey)
    (hcap : 1 ≤ s.unet_graphs_cache_size)
    (hsize : (s.unet_graphs.length : Int) ≤ s.unet_graphs_cache_size) :
    ∃ r, cacheAccess s hw = .ok r ∧
      (r.state.unet_graphs.length : Int) ≤ s.unet_graphs_cache_size ∧
      r.state.unet_graphs_lru_cache_time = s.unet_graphs_lru_cache_time + 1 ∧
      (∀ t g, dictLookup s.unet_graphs hw = some (t, g) →
        dictLookup r.state.unet_graphs hw = some (s.unet_graphs_lru_cache_time + 1, g)) ∧
      (∀ k ∈ r.evicted, ∃ t g, (k, (t, g)) ∈ s.unet_graphs ∧
        ∀ e ∈ s.unet_graphs, t ≤ e.2.1) := by
  cases hlook : dictLookup s.unet_graphs hw with
  | some tg =>
    obtain ⟨t0, g0⟩ := tg
    simp only [cacheAccess, hlook]
    refine ⟨_, rfl, ?_, rfl, ?_, ?_⟩
    · have := dictSet_length_some s.unet_graphs hw
        (s.unet_graphs_lru_cache_time + 1, g0) (t0, g0) hlook
      simp only [this]
      exact hsize
    · intro t g htg
      obtain ⟨rfl, rfl⟩ : t0 = t ∧ g0 = g := by
        injection htg with h'
        exact ⟨congrArg Prod.fst h', congrArg Prod.snd h'⟩
      exact dictSet_lookup_self _ _ _
    · intro k hk
      simp at hk
  | none =>
    by_cases hfull : (s.unet_graphs.length : Int) < s.unet_graphs_cache_size
    · have hev := evictLoop_under_cap s.unet_graphs s.unet_graphs_cache_size hfull
      simp only [cacheAccess, hlook, hev]
      refine ⟨_, rfl, ?_, rfl, ?_, ?_⟩
      · have := dictSet_length_none s.unet_graphs hw
          (s.unet_graphs_lru_cache_time + 1, s.compile_count) hlook
        simp only [this]
        push_cast
        omega
      · intro t g htg
        exact absurd htg (by simp)
      · intro k hk
        simp at hk
    · have hlen : (s.unet_graphs.length : Int) = s.unet_graphs_cache_size := by omega
      have hne : s.unet_graphs ≠ [] := by
        intro h0
        rw [h0] at hlen
        simp at hlen
        omega
      obtain ⟨k, hmin⟩ := minKeyByTime_isSome s.unet_graphs hne
      have hmem := minKeyByTime_mem s.unet_graphs k hmin
      have hdlen := dictDel_length s.unet_graphs k hmem
      have hev := evictLoop_at_cap s.unet_graphs s.unet_graphs_cache_size k hmin hlen
      simp only [cacheAccess, hlook, hev]
      refine ⟨_, rfl, ?_, rfl, ?_, ?_⟩
      · have hdnone := dictDel_lookup_none s.unet_graphs k hw hlook
        have := dictSet_length_none (dictDel s.unet_graphs k) hw
          (s.unet_graphs_lru_cache_time + 1, s.compile_count) hdnone
        simp only [this]
        push_cast
        omega
      · intro t g htg
        exact absurd htg (by simp)
      · intro k' hk'
        have : k' = k := by simpa using hk'
        subst this
        obtain ⟨t, g, hm, hall⟩ := minKeyByTime_spec s.unet_graphs k' hmin
        exact ⟨t, g, hm, hall⟩

/-- Closed instance of `claim_C1`: a miss on a full two-entry cache evicts
only the oldest entry and stays within capacity. -/
theorem claim_C1_witness :
    ∃ r, cacheAccess demoState (256, 256) = .ok r ∧
      (r.state.unet_graphs.length : Int) ≤ demoState.unet_graphs_cache_size ∧
      r.state.unet_graphs_lru_cache_time = demoState.unet_graphs_lru_cache_time + 1 ∧
      (∀ t g, dictLookup demoState.unet_graphs (256, 256) = some (t, g) →
        dictLookup r.state.unet_graphs (256, 256) =
          some (demoState.unet_graphs_lru_cache_time + 1, g)) ∧
      (∀ k ∈ r.evicted, ∃ t g, (k, (t, g)) ∈ demoState.unet_graphs ∧
        ∀ e ∈ demoState.unet_graphs, t ≤ e.2.1) :=
  claim_C1 demoState (256, 256) (by decide) (by decide)

/-- C2: for every shape key already present in the graph cache, a second
lookup with that key returns the cached compiled graph without invoking the
graph-construction factory (`compile_count` is unchanged, `recompiled` is
false), and only updates that entry's recency: the entry is re-stamped with
the new clock, every other key maps to its old value, and the key ordering
of the dict is unchanged. -/
theorem claim_C2 (s : PipelineCache) (hw : ShapeKey) (t g : Nat)
    (hlook : dictLookup s.unet_graphs hw = some (t, g)) :
    ∃ r, cacheAccess s hw = .ok r ∧
      r.unet_graph = g ∧
      r.recompiled = false ∧
      r.state.compile_count = s.compile_count ∧
      r.evicted = [] ∧
      dictLookup r.state.unet_graphs hw = some (s.unet_graphs_lru_cache_time + 1, g) ∧
      (∀ k', k' ≠ hw → dictLookup r.state.unet_graphs k' = dictLookup s.unet_graphs k') ∧
      r.state.unet_graphs.map Prod.fst = s.unet_graphs.map Prod.fst := by
  simp only [cacheAccess, hlook]
  refine ⟨_, rfl, rfl, rfl, rfl, rfl, ?_, ?_, ?_⟩
  · exact dictSet_lookup_self _ _ _
  · intro k' hk'
    exact dictLookup_dictSet_ne _ _ _ _ hk'
  · exact dictSet_map_fst_mem s.unet_graphs hw _ (t, g) hlook

/-- Closed instance of `claim_C2`: a hit on `demoState` reuses graph `0`
without recompiling. -/
theorem claim_C2_witness :
    ∃ r, cacheAccess demoState (64, 64) = .ok r ∧
      r.unet_graph = 0 ∧
      r.recompiled = false ∧
      r.state.compile_count = demoState.compile_count ∧
      r.evicted = [] ∧
      dictLookup r.state.unet_graphs (64, 64) =
        some (demoState.unet_graphs_lru_cache_time + 1, 0) ∧
      (∀ k', k' ≠ (64, 64) →
        dictLookup r.state.unet_graphs k' = dictLookup demoState.unet_graphs k') ∧
      r.state.unet_graphs.map Prod.fst = demoState.unet_graphs.map Prod.fst :=
  claim_C2 demoState (64, 64) 1 0 (by decide)

/-- C3: with cache capacity 2, performing cache accesses for shape keys
A = (64, 64), B = (128, 128), C = (256, 256), A, D = (512, 512) in that
order leaves the cache containing exactly the keys [A, D]; the eviction log
is [A, B, C], so B and C were evicted in that order (A was also evicted — at
the fourth access, the second A access being itself a miss — and then
recompiled). -/
theorem claim_C3 :
    ∃ s', runAccesses (set_unet_graphs_cache_size initPipelineCache 2)
        [(64, 64), (128, 128), (256, 256), (64, 64), (512, 512)] =
      .ok (s', [(64, 64), (128, 128), (256, 256)]) ∧
      s'.unet_graphs.map Prod.fst = [(64, 64), (512, 512)] :=
  ⟨_, rfl, rfl⟩

/-- C4 as stated is false: `set_unet_graphs_cache_size` performs no
validation at all, so setting the capacity to 0 is not rejected with any
error — the assignment succeeds, the capacity becomes 0 and the cached
entries are untouched. -/
theorem claim_C4_counterexample :
    set_unet_graphs_cache_size demoState 0 =
      { unet_graphs := [((64, 64), (1, 0)), ((128, 128), (2, 1))],
        unet_graphs_cache_size := 0, unet_graphs_lru_cache_time := 2,
        compile_count := 2 } := rfl

/-- C4, amended: `set_unet_graphs_cache_size` accepts any integer without
validation (no ConfigError is raised, even for n ≤ 0): for every integer n
the call succeeds and changes the maximum resident entry count for future
insertions without immediately evicting entries (the entry list and the
clock are left untouched), even when n is below the current occupancy;
and for n ≥ 1, eviction stays lazy, happening only on the next miss, which
brings the size back within the new capacity.  Only the last, lazy-eviction
conjunct is conditional on n ≥ 1; acceptance and no-immediate-eviction are
proved for all n, negative values included. -/
theorem claim_C4_amended (s : PipelineCache) (n : Int) (hw : ShapeKey) :
    (set_unet_graphs_cache_size s n).unet_graphs_cache_size = n ∧
    (set_unet_graphs_cache_size s n).unet_graphs = s.unet_graphs ∧
    (set_unet_graphs_cache_size s n).unet_graphs_lru_cache_time =
      s.unet_graphs_lru_cache_time ∧
    (1 ≤ n → dictLookup s.unet_graphs hw = none →
      ∃ r, cacheAccess (set_unet_graphs_cache_size s n) hw = .ok r ∧
        (r.state.unet_graphs.length : Int) ≤ n) := by
  refine ⟨rfl, rfl, rfl, ?_⟩
  intro hn hmiss
  obtain ⟨d', ev, hev, hlt, hnone⟩ := evictLoop_ok s.unet_graphs n hn
  simp only [cacheAccess, set_unet_graphs_cache_size, hmiss, hev]
  refine ⟨_, rfl, ?_⟩
  have := dictSet_length_none d' hw
    (s.unet_graphs_lru_cache_time + 1, s.compile_count) (hnone hw hmiss)
  simp only [this]
  push_cast
  omega

/-- Closed instance of `claim_C4_amended`: shrinking `demoState` (two
resident entries) to capacity 1 evicts nothing at set time, and the next
miss brings the size within the new capacity. -/
theorem claim_C4_amended_witness :
    (set_unet_graphs_cache_size demoState 1).unet_graphs_cache_size = 1 ∧
    (set_unet_graphs_cache_size demoState 1).unet_graphs = demoState.unet_graphs ∧
    (set_unet_graphs_cache_size demoState 1).unet_graphs_lru_cache_time =
      demoState.unet_graphs_lru_cache_time ∧
    (∃ r, cacheAccess (set_unet_graphs_cache_size demoState 1) (256, 256) = .ok r ∧
      (r.state.unet_graphs.length : Int) ≤ 1) :=
  ⟨(claim_C4_amended demoState 1 (256, 256)).1,
   (claim_C4_amended demoState 1 (256, 256)).2.1,
   (claim_C4_amended demoState 1 (256, 256)).2.2.1,
   (claim_C4_amended demoState 1 (256, 256)).2.2.2 (by decide) (by decide)⟩

/-! ### Embedding of with_oneflow_compile.py

`oneflow_compile(torch_unet, use_graph=..., options=...)` converts the torch
module (`torch2of`), swaps its class to `DeplayableModule`, and (only when
`use_graph` is true) attaches a compiled graph as `of_md._dpl_graph`.  The
entry points bridge nested argument structures through `ArgsTree.map_leaf`
with `input_fn` (torch → oneflow leaves) and `output_fn` (oneflow → torch
leaves). -/

/-- A nested argument structure as traversed by oneflow's `ArgsTree`:
tensor or scalar leaves, sequences, and string-keyed mappings.  A tensor
carries its dtype, shape and raw data; `flow.utils.tensor.from_torch` /
`to_torch` share the underlying device memory, so a converted tensor keeps
all three fields bit-for-bit. -/
inductive Value where
  | torchTensor (dtype : Nat) (shape : List Nat) (data : List Int)
  | flowTensor (dtype : Nat) (shape : List Nat) (data : List Int)
  | scalar (n : Int)
  | vlist (xs : List Value)
  | vdict (xs : List (String × Value))

mutual

/-- `ArgsTree(...).map_leaf(f)`: apply `f` to every leaf, rebuilding the
container structure unchanged. -/
def mapLeaf (f : Value → Value) : Value → Value
  | .vlist xs => .vlist (mapLeafL f xs)
  | .vdict xs => .vdict (mapLeafD f xs)
  | .torchTensor d sh da => f (.torchTensor d sh da)
  | .flowTensor d sh da => f (.flowTensor d sh da)
  | .scalar n => f (.scalar n)

def mapLeafL (f : Value → Value) : List Value → List Value
  | [] => []
  | x :: xs => mapLeaf f x :: mapLeafL f xs

def mapLeafD (f : Value → Value) : List (String × Value) → List (String × Value)
  | [] => []
  | (k, x) :: xs => (k, mapLeaf f x) :: mapLeafD f xs

end

/-- `input_fn` of `oneflow_compile`: a `torch.Tensor` leaf is converted by
`flow.utils.tensor.from_torch` (sharing memory: same dtype, shape, data);
any other value is returned unchanged. -/
def input_fn : Value → Value
  | .torchTensor d sh da => .flowTensor d sh da
  | v => v

/-- `output_fn` of `oneflow_compile`: a `flow.Tensor` leaf is converted by
`flow.utils.tensor.to_torch`; any other value is returned unchanged. -/
def output_fn : Value → Value
  | .flowTensor d sh da => .torchTensor d sh da
  | v => v

/-- Whether a value is a `torch.Tensor` leaf. -/
def isTorchTensor : Value → Bool
  | .torchTensor _ _ _ => true
  | _ => false

/-- Whether a value is a `flow.Tensor` leaf. -/
def isFlowTensor : Value → Bool
  | .flowTensor _ _ _ => true
  | _ => false

/-- Whether a value is a leaf (not a sequence or a mapping). -/
def leafLike : Value → Bool
  | .vlist _ => false
  | .vdict _ => false
  | _ => true

mutual

/-- No `flow.Tensor` leaf occurs anywhere in the structure: it is a nested
structure of dynamic-framework (torch) tensors and scalars only. -/
def noFlow : Value → Bool
  | .torchTensor _ _ _ => true
  | .flowTensor _ _ _ => false
  | .scalar _ => true
  | .vlist xs => noFlowL xs
  | .vdict xs => noFlowD xs

def noFlowL : List Value → Bool
  | [] => true
  | x :: xs => noFlow x && noFlowL xs

def noFlowD : List (String × Value) → Bool
  | [] => true
  | (_, x) :: xs => noFlow x && noFlowD xs

end

/-- The container skeleton of a structure: nesting, lengths, and key sets
with their ordering, with every leaf erased to `leaf`. -/
inductive Skel where
  | leaf
  | slist (xs : List Skel)
  | sdict (xs : List (String × Skel))

mutual

def skeleton : Value → Skel
  | .torchTensor _ _ _ => .leaf
  | .flowTensor _ _ _ => .leaf
  | .scalar _ => .leaf
  | .vlist xs => .slist (skeletonL xs)
  | .vdict xs => .sdict (skeletonD xs)

def skeletonL : List Value → List Skel
  | [] => []
  | x :: xs => skeleton x :: skeletonL xs

def skeletonD : List (String × Value) → List (String × Skel)
  | [] => []
  | (k, x) :: xs => (k, skeleton x) :: skeletonD xs

end

theorem skeleton_eq_leaf (v : Value) (h : leafLike v = true) : skeleton v = .leaf := by
  cases v <;> first | rfl | simp [leafLike] at h

theorem input_fn_leafLike (v : Value) (h : leafLike v = true) :
    leafLike (input_fn v) = true := by
  cases v <;> first | rfl | simp [leafLike] at h

theorem output_fn_leafLike (v : Value) (h : leafLike v = true) :
    leafLike (output_fn v) = true := by
  cases v <;> first | rfl | simp [leafLike] at h

mutual

theorem roundtrip : ∀ v : Value, noFlow v = true →
    mapLeaf output_fn (mapLeaf input_fn v) = v
  | .torchTensor _ _ _, _ => rfl
  | .flowTensor _ _ _, h => by simp [noFlow] at h
  | .scalar _, _ => rfl
  | .vlist xs, h => by
    simp only [mapLeaf]
    rw [roundtripL xs (by simpa [noFlow] using h)]
  | .vdict xs, h => by
    simp only [mapLeaf]
    rw [roundtripD xs (by simpa [noFlow] using h)]

theorem roundtripL : ∀ xs : List Value, noFlowL xs = true →
    mapLeafL output_fn (mapLeafL input_fn xs) = xs
  | [], _ => rfl
  | x :: xs, h => by
    have hx : noFlow x = true := by
      have := h
      simp [noFlowL, Bool.and_eq_true] at this
      exact this.1
    have hxs : noFlowL xs = true := by
      have := h
      simp [noFlowL, Bool.and_eq_true] at this
      exact this.2
    simp only [mapLeafL]
    rw [roundtrip x hx, roundtripL xs hxs]

theorem roundtripD : ∀ xs : List (String × Value), noFlowD xs = true →
    mapLeafD output_fn (mapLeafD input_fn xs) = xs
  | [], _ => rfl
  | (k, x) :: xs, h => by
    have hx : noFlow x = true := by
      have := h
      simp [noFlowD, Bool.and_eq_true] at this
      exact this.1
    have hxs : noFlowD xs = true := by
      have := h
      simp [noFlowD, Bool.and_eq_true] at this
      exact this.2
    simp only [mapLeafD]
    rw [roundtrip x hx, roundtripD xs hxs]

end

mutual

theorem skeleton_mapLeaf (f : Value → Value)
    (hf : ∀ v, leafLike v = true → leafLike (f v) = true) :
    ∀ v : Value, skeleton (mapLeaf f v) = skeleton v
  | .torchTensor d sh da => by
    have := skeleton_eq_leaf (f (.torchTensor d sh da)) (hf _ rfl)
    simp only [mapLeaf, this, skeleton]
  | .flowTensor d sh da => by
    have := skeleton_eq_leaf (f (.flowTensor d sh da)) (hf _ rfl)
    simp only [mapLeaf, this, skeleton]
  | .scalar n => by
    have := skeleton_eq_leaf (f (.scalar n)) (hf _ rfl)
    simp only [mapLeaf, this, skeleton]
  | .vlist xs => by
    simp only [mapLeaf, skeleton]
    rw [skeleton_mapLeafL f hf xs]
  | .vdict xs => by
    simp only [mapLeaf, skeleton]
    rw [skeleton_mapLeafD f hf xs]

theorem skeleton_mapLeafL (f : Value → Value)
    (hf : ∀ v, leafLike v = true → leafLike (f v) = true) :
    ∀ xs : List Value, skeletonL (mapLeafL f xs) = skeletonL xs
  | [] => rfl
  | x :: xs => by
    simp only [mapLeafL, skeletonL]
    rw [skeleton_mapLeaf f hf x, skeleton_mapLeafL f hf xs]

theorem skeleton_mapLeafD (f : Value → Value)
    (hf : ∀ v, leafLike v = true → leafLike (f v) = true) :
    ∀ xs : List (String × Value), skeletonD (mapLeafD f xs) = skeletonD xs
  | [] => rfl
  | (k, x) :: xs => by
    simp only [mapLeafD, skeletonD]
    rw [skeleton_mapLeaf f hf x, skeleton_mapLeafD f hf xs]

end

/-- The converted module `of_md = torch2of(torch_unet)`: whether its class
defines `__call__` / `apply_model` (what `hasattr(super(), ...)` tests in
the shim), and the eager semantics of those entry points (what
`super().__call__` / `super().apply_model` compute on already-bridged
arguments). -/
structure TorchModule where
  has_call : Bool
  has_apply_model : Bool
  call : Value → Value
  apply_model : Value → Value

/-- The object returned by `oneflow_compile`: the converted module whose
class was swapped to `DeplayableModule`, the `use_graph` flag captured by
the closure, and the `_dpl_graph` attribute — absent (`none`) when the
`if use_graph: of_md._dpl_graph = dpl_graph` assignment did not run.  The
compiled graph is opaque here and represented by its execution function
(what `self._dpl_graph(*args, **kwargs)` computes on bridged arguments). -/
structure DeplModule where
  base : TorchModule
  use_graph : Bool
  dpl_graph : Option (Value → Value)

/-- `oneflow_compile(torch_unet, use_graph=...)`: build the deployable
module; the `UNetGraph` wrapping the converted module (with compiled
semantics `graphExec`) is constructed and attached only when `use_graph`
is true. -/
def oneflow_compile (md : TorchModule) (use_graph : Bool)
    (graphExec : Value → Value) : DeplModule :=
  { base := md, use_graph := use_graph,
    dpl_graph := if use_graph then some graphExec else none }

/-- Observable outcome of one shim invocation: the returned value (`ok none`
models Python's implicit `return None`), whether `process_input` ran, and
whether an underlying execution (graph or eager) ran. -/
structure CallResult where
  result : Except PyError (Option Value)
  bridged : Bool
  executed : Bool

/-- `DeplayableModule.__call__`: if the wrapped class defines `__call__`,
bridge the arguments (`process_input`), run either `self._dpl_graph` (graph
mode) or `super().__call__` (eager), and bridge the output back
(`process_output`); if it does not, fall off the end of the method and
return `None`.  Reading `self._dpl_graph` when the attribute was never
attached raises AttributeError. -/
def dplCall (m : DeplModule) (arg : Value) : CallResult :=
  if m.base.has_call then
    let mapped := mapLeaf input_fn arg
    if m.use_graph then
      match m.dpl_graph with
      | some g =>
        { result := .ok (some (mapLeaf output_fn (g mapped))),
          bridged := true, executed := true }
      | none => { result := .error .attributeError, bridged := true, executed := false }
    else
      { result := .ok (some (mapLeaf output_fn (m.base.call mapped))),
        bridged := true, executed := true }
  else { result := .ok none, bridged := false, executed := false }

/-- `DeplayableModule.apply_model`: same shape as `__call__`, guarded by
`hasattr(super(), "apply_model")`. -/
def dplApplyModel (m : DeplModule) (arg : Value) : CallResult :=
  if m.base.has_apply_model then
    let mapped := mapLeaf input_fn arg
    if m.use_graph then
      match m.dpl_graph with
      | some g =>
        { result := .ok (some (mapLeaf output_fn (g mapped))),
          bridged := true, executed := true }
      | none => { result := .error .attributeError, bridged := true, executed := false }
    else
      { result := .ok (some (mapLeaf output_fn (m.base.apply_model mapped))),
        bridged := true, executed := true }
  else { result := .ok none, bridged := false, executed := false }

/-- `DeplayableModule.save_graph`: `self._dpl_graph.save_graph(file_path)`.
When `_dpl_graph` was never attached the attribute lookup raises
AttributeError; otherwise the call delegates to the external oneflow
runtime-state save (`flow.save(self.runtime_state_dict(), file_path)`),
opaque here and modelled as plain success. -/
def dplSaveGraph (m : DeplModule) (filePath : String) : Except PyError Unit :=
  match m.dpl_graph with
  | some _ => .ok ()
  | none => .error .attributeError

/-- `DeplayableModule.load_graph`:
`self._dpl_graph.warmup_with_load(file_path, device)`, AttributeError when
`_dpl_graph` was never attached. -/
def dplLoadGraph (m : DeplModule) (filePath : String) (device : Option String) :
    Except PyError Unit :=
  match m.dpl_graph with
  | some _ => .ok ()
  | none => .error .attributeError

/-- `DeplayableModule.warmup_with_load`: identical delegation to
`load_graph`. -/
def dplWarmupWithLoad (m : DeplModule) (filePath : String) (device : Option String) :
    Except PyError Unit :=
  match m.dpl_graph with
  | some _ => .ok ()
  | none => .error .attributeError

/-! ### The claims about the deployable-module shim and the tensor bridge -/

/-- A converted module whose entry points are the identity, used to
instantiate the shim theorems on concrete inputs. -/
def idModule : TorchModule :=
  { has_call := true, has_apply_model := true,
    call := fun v => v, apply_model := fun v => v }

/-- A converted module whose class defines neither `__call__` nor
`apply_model`. -/
def bareModule : TorchModule :=
  { has_call := false, has_apply_model := false,
    call := fun v => v, apply_model := fun v => v }

/-- A nested structure of torch tensors and scalars, used to instantiate
the bridge theorems on a concrete input. -/
def demoStruct : Value :=
  .vdict [("latents", .torchTensor 0 [1, 4] [1, 2, 3, 4]),
          ("t", .scalar 981),
          ("embeds", .vlist [.torchTensor 1 [2] [5, 6]])]

/-- C6: for every input, invoking the deployable module produced by
`oneflow_compile` with `use_graph=True` yields an output equal to invoking
the module produced with `use_graph=False` on the same input, assuming the
eager and compiled execution paths of the wrapped module are mathematically
equivalent (`graphExec` agrees with the eager `__call__` pointwise; the
model is exact, so "within floating-point tolerance" is witnessed by
equality); the graph-mode flag is fixed at construction and the invocation
surface (`dplCall` on the same argument) is unchanged. -/
theorem claim_C6 (md : TorchModule) (graphExec : Value → Value) (arg : Value)
    (heq : ∀ v, graphExec v = md.call v) :
    dplCall (oneflow_compile md true graphExec) arg =
      dplCall (oneflow_compile md false graphExec) arg ∧
    (oneflow_compile md true graphExec).use_graph = true ∧
    (oneflow_compile md false graphExec).use_graph = false := by
  refine ⟨?_, rfl, rfl⟩
  by_cases hc : md.has_call
  · simp [dplCall, oneflow_compile, hc, heq]
  · simp [dplCall, oneflow_compile, hc]

/-- Closed instance of `claim_C6` on the identity module with a pointwise
equal graph. -/
theorem claim_C6_witness :
    dplCall (oneflow_compile idModule true (fun v => v)) (.scalar 3) =
      dplCall (oneflow_compile idModule false (fun v => v)) (.scalar 3) ∧
    (oneflow_compile idModule true (fun v => v)).use_graph = true ∧
    (oneflow_compile idModule false (fun v => v)).use_graph = false :=
  claim_C6 idModule (fun v => v) (.scalar 3) (fun _ => rfl)

/-- C7: for every nested structure S of dynamic-framework (torch) tensors
and scalars — no oneflow-tensor leaf — converting S to the compiled
representation and back (`to_dynamic(to_compiled(S))`, i.e.
`map_leaf output_fn` after `map_leaf input_fn`) yields S itself: identical
nesting, key sets, ordering, and leaf dtypes, shapes and values,
bit-for-bit. -/
theorem claim_C7 (s : Value) (h : noFlow s = true) :
    mapLeaf output_fn (mapLeaf input_fn s) = s :=
  roundtrip s h

/-- Closed instance of `claim_C7` on a concrete nested structure. -/
theorem claim_C7_witness :
    noFlow demoStruct = true ∧
    mapLeaf output_fn (mapLeaf input_fn demoStruct) = demoStruct :=
  ⟨rfl, claim_C7 demoStruct rfl⟩

/-- C8: a leaf that is not a tensor of the source framework of the
conversion is returned unchanged by the leaf conversion functions
(`input_fn` only converts `torch.Tensor`, `output_fn` only converts
`flow.Tensor`), rather than raising an error (both functions are total),
and the bridge traversal preserves the argument's container skeleton —
nesting, lengths, keys and their order — exactly; the embedding is pure, so
inputs are never mutated. -/
theorem claim_C8 (v w s : Value)
    (hv : isTorchTensor v = false) (hw : isFlowTensor w = false) :
    input_fn v = v ∧ output_fn w = w ∧
    skeleton (mapLeaf input_fn s) = skeleton s ∧
    skeleton (mapLeaf output_fn s) = skeleton s := by
  refine ⟨?_, ?_, ?_, ?_⟩
  · cases v <;> first | rfl | simp [isTorchTensor] at hv
  · cases w <;> first | rfl | simp [isFlowTensor] at hw
  · exact skeleton_mapLeaf input_fn input_fn_leafLike s
  · exact skeleton_mapLeaf output_fn output_fn_leafLike s

/-- Closed instance of `claim_C8`: a oneflow tensor passes `input_fn`
unchanged, a torch tensor passes `output_fn` unchanged, and the traversal
preserves the skeleton of a concrete nested structure. -/
theorem claim_C8_witness :
    input_fn (.flowTensor 0 [1] [7]) = .flowTensor 0 [1] [7] ∧
    output_fn (.torchTensor 0 [1] [7]) = .torchTensor 0 [1] [7] ∧
    skeleton (mapLeaf input_fn demoStruct) = skeleton demoStruct ∧
    skeleton (mapLeaf output_fn demoStruct) = skeleton demoStruct :=
  claim_C8 (.flowTensor 0 [1] [7]) (.torchTensor 0 [1] [7]) demoStruct rfl rfl

/-- C9: when `oneflow_compile` is called with `use_graph=False`, the
returned module never constructs a compiled graph and carries no
`_dpl_graph` attribute, so calling `save_graph`, `load_graph`, or
`warmup_with_load` on that module raises an AttributeError rather than
performing a no-op or a graph operation. -/
theorem claim_C9 (md : TorchModule) (graphExec : Value → Value)
    (filePath : String) (device : Option String) :
    (oneflow_compile md false graphExec).dpl_graph = none ∧
    dplSaveGraph (oneflow_compile md false graphExec) filePath =
      .error .attributeError ∧
    dplLoadGraph (oneflow_compile md false graphExec) filePath device =
      .error .attributeError ∧
    dplWarmupWithLoad (oneflow_compile md false graphExec) filePath device =
      .error .attributeError :=
  ⟨rfl, rfl, rfl, rfl⟩

/-- C10: for every input, if the class of the wrapped converted module does
not define the invoked entry point (`__call__` or `apply_model`
respectively), the deployable module's `__call__` and `apply_model`
silently return `None` (`ok none`: no error) without converting arguments
(`bridged = false`) or executing anything (`executed = false`). -/
theorem claim_C10 (md : TorchModule) (use_graph : Bool)
    (graphExec : Value → Value) (arg : Value)
    (hcall : md.has_call = false) (happly : md.has_apply_model = false) :
    dplCall (oneflow_compile md use_graph graphExec) arg =
      { result := .ok none, bridged := false, executed := false } ∧
    dplApplyModel (oneflow_compile md use_graph graphExec) arg =
      { result := .ok none, bridged := false, executed := false } := by
  constructor
  · simp [dplCall, oneflow_compile, hcall]
  · simp [dplApplyModel, oneflow_compile, happly]

/-- Closed instance of `claim_C10` on a module without either entry
point. -/
theorem claim_C10_witness :
    dplCall (oneflow_compile bareModule true (fun v => v)) (.scalar 3) =
      { result := .ok none, bridged := false, executed := false } ∧
    dplApplyModel (oneflow_compile bareModule true (fun v => v)) (.scalar 3) =
      { result := .ok none, bridged := false, executed := false } :=
  claim_C10 bareModule true (fun v => v) (.scalar 3) rfl rfl

end OneDiff
